import Mathlib

/-!
Verification development for the MiroThinker agent framework.

Strings of the Python source are embedded as `List Char` (`Str`), so that every
operation of the source (slicing, scanning, regular-expression style matching)
is rendered as an executable structural function.  Each section embeds one
portion of the source and proves the properties claimed of it.
-/

namespace MiroThinker

/-- Python strings are embedded as lists of characters. -/
abbrev Str := List Char

/-- Coerce a Lean string literal to the embedded string type. -/
def chars (s : String) : Str := s.data

/-! ## LLM client: tool-result retention pass
Embeds `BaseClient._remove_tool_result_from_messages`
(`apps/miroflow-agent/src/llm/base_client.py`). -/

/-- A conversation message content: either a plain string (OpenAI format) or a
list of `(type, text)` blocks (Anthropic format). -/
inductive Content where
  | str : Str → Content
  | blocks : List (Str × Str) → Content
deriving DecidableEq, Repr

/-- A conversation message: a role (`"user"`, `"tool"`, `"assistant"`, ...) and a content. -/
structure Message where
  role : Str
  content : Content
deriving DecidableEq, Repr

/-- Default message used to totalize list indexing. -/
def mdefault : Message := ⟨[], Content.str []⟩

/-- The sentinel content installed in place of an omitted tool result. -/
def omittedSentinel : Str := chars "Tool result is omitted to save tokens."

/-- `msg.get("role") == "user" or msg.get("role") == "tool"`. -/
def isUserOrTool (m : Message) : Bool :=
  m.role == chars "user" || m.role == chars "tool"

/-- Content replacement applied to an omitted tool result: a text block for the
Anthropic (list) format, a bare string for the OpenAI format. -/
def rewriteOmitted : Content → Content
  | Content.blocks _ => Content.blocks [(chars "text", omittedSentinel)]
  | Content.str _ => Content.str omittedSentinel

/-- Whether a content is exactly the sentinel installed by the retention pass. -/
def isSentinelContent (c : Content) : Bool :=
  c == Content.str omittedSentinel || c == Content.blocks [(chars "text", omittedSentinel)]

/-- Indices of all `user`/`tool` messages, in order
(`user_indices = [i for i, msg in enumerate(messages) if ...]`). -/
def userIndices (messages : List Message) : List Nat :=
  (List.range messages.length).filter (fun i => isUserOrTool (messages.getD i mdefault))

/-- The final rewriting loop of `_remove_tool_result_from_messages`
(`for i, msg in enumerate(messages_copy): if (user or tool) and i not in indices_to_keep: ...`),
carrying the running index. -/
def rewritePass (keepIdx : List Nat) : Nat → List Message → List Message
  | _, [] => []
  | i, m :: rest =>
      (if isUserOrTool m && !(keepIdx.contains i)
       then { m with content := rewriteOmitted m.content } else m) :: rewritePass keepIdx (i + 1) rest

/-- `indices_to_keep`: the first user/tool index (the initial task) followed by the
last `keep_tool_result` tool-result indices (`tool_result_indices[-num:]`). -/
def keepIndices (ui : List Nat) (keepToolResult : Int) : List Nat :=
  let tri := ui.tail
  let numKeep : Int := if keepToolResult == 0 then 0 else min keepToolResult (Int.ofNat tri.length)
  let keepTailIdx : List Nat := if 0 < numKeep then tri.drop (tri.length - numKeep.toNat) else []
  ui.headD 0 :: keepTailIdx

/-- `BaseClient._remove_tool_result_from_messages(messages, keep_tool_result)`. -/
def removeToolResultFromMessages (messages : List Message) (keepToolResult : Int) : List Message :=
  if keepToolResult == -1 then messages
  else
    let ui := userIndices messages
    if ui.length == 0 then messages
    else if ui.length == 1 then messages
    else rewritePass (keepIndices ui keepToolResult) 0 messages

/-- Number of `user`/`tool` messages other than the one at `firstIdx` whose
content is not the omission sentinel. -/
def nonSentinelToolResultCount (out : List Message) (firstIdx : Nat) : Nat :=
  ((List.range out.length).filter (fun i =>
      isUserOrTool (out.getD i mdefault) &&
      !(isSentinelContent (out.getD i mdefault).content) && (i != firstIdx))).length

theorem length_rewritePass (keepIdx : List Nat) (i : Nat) (msgs : List Message) :
    (rewritePass keepIdx i msgs).length = msgs.length := by
  induction msgs generalizing i with
  | nil => rfl
  | cons m rest ih => simp [rewritePass, ih]

theorem getD_rewritePass (keepIdx : List Nat) (msgs : List Message) (i j : Nat)
    (hj : j < msgs.length) :
    (rewritePass keepIdx i msgs).getD j mdefault =
      (if isUserOrTool (msgs.getD j mdefault) && !(keepIdx.contains (i + j))
       then { msgs.getD j mdefault with content := rewriteOmitted (msgs.getD j mdefault).content }
       else msgs.getD j mdefault) := by
  induction msgs generalizing i j with
  | nil => simp at hj
  | cons m rest ih =>
    cases j with
    | zero => simp [rewritePass]
    | succ j' =>
      have hj' : j' < rest.length := by simpa using hj
      have := ih (i + 1) j' hj'
      simpa [rewritePass, Nat.add_assoc, Nat.add_comm 1 j'] using this

theorem getD_rewritePass_oob (keepIdx : List Nat) (msgs : List Message) (i j : Nat)
    (hj : msgs.length ≤ j) :
    (rewritePass keepIdx i msgs).getD j mdefault = mdefault := by
  apply List.getD_eq_default
  simpa [length_rewritePass]

theorem isUserOrTool_withContent (m : Message) (c : Content) :
    isUserOrTool { m with content := c } = isUserOrTool m := rfl

theorem getD_rewritePass_keep (keepIdx : List Nat) (msgs : List Message) (i j : Nat)
    (hj : j < msgs.length) (h : keepIdx.contains (i + j) = true) :
    (rewritePass keepIdx i msgs).getD j mdefault = msgs.getD j mdefault := by
  rw [getD_rewritePass _ _ _ _ hj, h]
  simp

theorem getD_rewritePass_notuser (keepIdx : List Nat) (msgs : List Message) (i j : Nat)
    (hj : j < msgs.length) (h : isUserOrTool (msgs.getD j mdefault) = false) :
    (rewritePass keepIdx i msgs).getD j mdefault = msgs.getD j mdefault := by
  rw [getD_rewritePass _ _ _ _ hj, h]
  simp

theorem getD_rewritePass_omit (keepIdx : List Nat) (msgs : List Message) (i j : Nat)
    (hj : j < msgs.length) (h1 : isUserOrTool (msgs.getD j mdefault) = true)
    (h2 : keepIdx.contains (i + j) = false) :
    (rewritePass keepIdx i msgs).getD j mdefault =
      { msgs.getD j mdefault with content := rewriteOmitted (msgs.getD j mdefault).content } := by
  rw [getD_rewritePass _ _ _ _ hj, h1, h2]
  simp

theorem mem_userIndices {messages : List Message} {i : Nat} :
    i ∈ userIndices messages ↔
      i < messages.length ∧ isUserOrTool (messages.getD i mdefault) = true := by
  simp [userIndices, List.mem_filter, List.mem_range]

theorem userIndices_sorted (messages : List Message) :
    (userIndices messages).Pairwise (· < ·) :=
  List.Pairwise.sublist (List.filter_sublist _) (List.pairwise_lt_range _)

theorem isSentinelContent_rewriteOmitted (c : Content) :
    isSentinelContent (rewriteOmitted c) = true := by
  cases c <;> simp [rewriteOmitted, isSentinelContent]

theorem getD_mem_of_lt {messages : List Message} {i : Nat} (hi : i < messages.length) :
    messages.getD i mdefault ∈ messages := by
  rw [List.getD_eq_getElem messages mdefault hi]
  exact List.getElem_mem hi

/-- The property claimed of the retention pass, for a history and retention
parameter `k`: `keep_tool_result = -1` returns the history unchanged; with the
given `k`, exactly `min(k, T)` tool-result messages keep non-sentinel content
(where `T` counts the user/tool messages after the first one); every user/tool
message is either untouched or rewritten in place to the sentinel; non-user/tool
messages are untouched; and the first user/tool message (the initial task) is
never rewritten. -/
def retentionPassSpec (messages : List Message) (k : Int) : Prop :=
  removeToolResultFromMessages messages (-1) = messages ∧
  nonSentinelToolResultCount (removeToolResultFromMessages messages k)
      ((userIndices messages).headD 0)
    = min k.toNat ((userIndices messages).length - 1) ∧
  (∀ i, i < messages.length → isUserOrTool (messages.getD i mdefault) = true →
    (removeToolResultFromMessages messages k).getD i mdefault = messages.getD i mdefault ∨
    (((removeToolResultFromMessages messages k).getD i mdefault).role
        = (messages.getD i mdefault).role ∧
      isSentinelContent (((removeToolResultFromMessages messages k).getD i mdefault).content)
        = true)) ∧
  (∀ i, i < messages.length → isUserOrTool (messages.getD i mdefault) = false →
    (removeToolResultFromMessages messages k).getD i mdefault = messages.getD i mdefault) ∧
  (userIndices messages ≠ [] →
    (removeToolResultFromMessages messages k).getD ((userIndices messages).headD 0) mdefault
      = messages.getD ((userIndices messages).headD 0) mdefault)

theorem contains_eq_true_of_mem {l : List Nat} {i : Nat} (h : i ∈ l) : l.contains i = true :=
  List.elem_iff.mpr h

theorem contains_eq_false_of_not_mem {l : List Nat} {i : Nat} (h : i ∉ l) :
    l.contains i = false := by
  rw [← Bool.not_eq_true]
  intro hc
  exact h (List.elem_iff.mp hc)

/-- **C1.** For every message history whose first user/tool message is a `user`
message (the initial task) and in which no content already equals the omission
sentinel, and for every `k ≥ 0`: the retention pass leaves exactly `min(k, T)`
tool-result messages with non-sentinel content (`T` = user/tool messages after
the first), rewrites every other tool-result message's content to exactly
"Tool result is omitted to save tokens.", never rewrites the first user message,
and returns the history unchanged when `k = -1`. -/
theorem c1_retention_pass (messages : List Message) (k : Int)
    (hk : 0 ≤ k)
    (hsent : ∀ m ∈ messages, isSentinelContent m.content = false)
    (hfirst : userIndices messages ≠ [] →
      (messages.getD ((userIndices messages).headD 0) mdefault).role = chars "user") :
    retentionPassSpec messages k := by
  clear hfirst
  have hkne : (k == -1) = false := by
    simp only [beq_eq_false_iff_ne, ne_eq]
    omega
  have hminus : removeToolResultFromMessages messages (-1) = messages := by
    simp [removeToolResultFromMessages]
  have hsent' : ∀ i, i < messages.length →
      isSentinelContent ((messages.getD i mdefault).content) = false :=
    fun i hi => hsent _ (getD_mem_of_lt hi)
  rcases hui : userIndices messages with _ | ⟨u, tri⟩
  · -- no user/tool messages at all
    have hout : removeToolResultFromMessages messages k = messages := by
      simp [removeToolResultFromMessages, hkne, hui]
    have hnut : ∀ i, i < messages.length → isUserOrTool (messages.getD i mdefault) = false := by
      intro i hi
      by_contra h
      have hmem : i ∈ userIndices messages :=
        mem_userIndices.mpr ⟨hi, by revert h; cases isUserOrTool (messages.getD i mdefault) <;> simp⟩
      rw [hui] at hmem
      simp at hmem
    refine ⟨hminus, ?_, ?_, ?_, ?_⟩
    · rw [hout, hui]
      unfold nonSentinelToolResultCount
      rw [List.filter_eq_nil_iff.mpr]
      · simp
      · intro i hi
        have hfalse := hnut i (List.mem_range.mp hi)
        intro hcon
        rw [hfalse] at hcon
        simp at hcon
    · intro i hi hut
      rw [hnut i hi] at hut
      exact absurd hut (by simp)
    · intro i _ _
      rw [hout]
    · intro h
      rw [hui] at h
      exact absurd rfl h
  rcases tri with _ | ⟨v, rest⟩
  · -- exactly one user/tool message: only the initial task
    have hout : removeToolResultFromMessages messages k = messages := by
      simp [removeToolResultFromMessages, hkne, hui]
    refine ⟨hminus, ?_, ?_, ?_, ?_⟩
    · rw [hout, hui]
      unfold nonSentinelToolResultCount
      rw [List.filter_eq_nil_iff.mpr]
      · simp
      · intro i hi
        have hi' : i < messages.length := List.mem_range.mp hi
        by_cases hut : isUserOrTool (messages.getD i mdefault) = true
        · have hmem : i ∈ userIndices messages := mem_userIndices.mpr ⟨hi', hut⟩
          rw [hui] at hmem
          have hieq : i = u := by simpa using hmem
          subst hieq
          intro hcon
          simp at hcon
        · simp only [Bool.not_eq_true] at hut
          intro hcon
          rw [hut] at hcon
          simp at hcon
    · intro i _ _
      exact Or.inl (by rw [hout])
    · intro i _ _
      rw [hout]
    · intro _
      rw [hout]
  · -- at least one tool result: the rewriting branch runs
    have hout : removeToolResultFromMessages messages k =
        rewritePass (keepIndices (u :: v :: rest) k) 0 messages := by
      simp [removeToolResultFromMessages, hkne, hui]
    have hpw : (u :: v :: rest).Pairwise (· < ·) := hui ▸ userIndices_sorted messages
    have hnodup : (u :: v :: rest).Nodup :=
      hpw.imp (fun h => Nat.ne_of_lt h)
    obtain ⟨kt, hkeep, hkt_sl, hkt_len⟩ :
        ∃ kt : List Nat, keepIndices (u :: v :: rest) k = u :: kt ∧
          kt.Sublist (v :: rest) ∧ kt.length = min k.toNat (rest.length + 1) := by
      by_cases hk0 : k = 0
      · exact ⟨[], by simp [keepIndices, hk0], List.nil_sublist _, by simp [hk0]⟩
      · have hk0' : (k == 0) = false := by
          simp only [beq_eq_false_iff_ne, ne_eq]
          exact hk0
        rcases le_total k ((rest.length : Int) + 1) with hle | hle
        · refine ⟨(v :: rest).drop ((rest.length + 1) - k.toNat), ?_, List.drop_sublist _ _, ?_⟩
          · simp [keepIndices, hk0', min_eq_left hle, show (0:Int) < k by omega]
          · rw [List.length_drop]
            rw [min_eq_left (show k.toNat ≤ rest.length + 1 by omega)]
            simp only [List.length_cons]
            omega
        · refine ⟨v :: rest, ?_, List.Sublist.refl _, ?_⟩
          · have hmin : min k ((rest.length : Int) + 1) = (rest.length : Int) + 1 :=
              min_eq_right hle
            simp [keepIndices, hk0', hmin, show (0:Int) < (rest.length : Int) + 1 by omega]
          · rw [min_eq_right (show rest.length + 1 ≤ k.toNat by omega)]
            simp
    have htri_nodup : (v :: rest).Nodup := hnodup.of_cons
    have hkt_nodup : kt.Nodup := hkt_sl.nodup htri_nodup
    have hkt_sub : ∀ {x : Nat}, x ∈ kt → x ∈ v :: rest := fun h => hkt_sl.subset h
    have hu_lt : ∀ x ∈ v :: rest, u < x := (List.pairwise_cons.mp hpw).1
    have hu_nin : u ∉ kt := fun h => lt_irrefl u (hu_lt u (hkt_sub h))
    have hmem_ui : ∀ i : Nat, i ∈ u :: v :: rest ↔
        i < messages.length ∧ isUserOrTool (messages.getD i mdefault) = true := by
      intro i
      rw [← hui]
      exact mem_userIndices
    have hu_lt_len : u < messages.length := ((hmem_ui u).mp (by simp)).1
    refine ⟨hminus, ?_, ?_, ?_, ?_⟩
    · -- the count of non-sentinel tool results
      rw [hout, hkeep, hui]
      unfold nonSentinelToolResultCount
      rw [length_rewritePass]
      simp only [List.headD_cons]
      have hcongr : (List.range messages.length).filter (fun i =>
            isUserOrTool ((rewritePass (u :: kt) 0 messages).getD i mdefault) &&
            !(isSentinelContent ((rewritePass (u :: kt) 0 messages).getD i mdefault).content) &&
            (i != u))
          = (List.range messages.length).filter (fun i => kt.contains i) := by
        apply List.filter_congr
        intro i hi
        have hi' : i < messages.length := List.mem_range.mp hi
        by_cases hut : isUserOrTool (messages.getD i mdefault) = true
        · by_cases hiu : i = u
          · subst hiu
            rw [getD_rewritePass_keep _ _ 0 i hi'
                  (by simpa using contains_eq_true_of_mem (l := i :: kt) (by simp)),
                contains_eq_false_of_not_mem hu_nin, hut]
            simp
          · by_cases hikt : i ∈ kt
            · have hine : i ≠ u := hiu
              rw [getD_rewritePass_keep _ _ 0 i hi'
                    (by simpa using contains_eq_true_of_mem (l := u :: kt) (by simp [hikt])),
                  contains_eq_true_of_mem hikt, hut, hsent' i hi']
              simp [hine]
            · have hnin : i ∉ u :: kt := by
                intro hmem
                rcases List.mem_cons.mp hmem with h | h
                · exact hiu h
                · exact hikt h
              rw [getD_rewritePass_omit _ _ 0 i hi' hut
                    (by simpa using contains_eq_false_of_not_mem hnin),
                  isUserOrTool_withContent, contains_eq_false_of_not_mem hikt, hut]
              have hsc : isSentinelContent
                  ({ messages.getD i mdefault with
                      content := rewriteOmitted (messages.getD i mdefault).content }).content
                    = true := isSentinelContent_rewriteOmitted _
              rw [hsc]
              simp
        · simp only [Bool.not_eq_true] at hut
          have hikt : i ∉ kt := by
            intro h
            have hmem := ((hmem_ui i).mp (List.mem_cons_of_mem u (hkt_sub h))).2
            rw [hut] at hmem
            exact absurd hmem (by simp)
          rw [getD_rewritePass_notuser _ _ 0 i hi' hut,
              contains_eq_false_of_not_mem hikt, hut]
          simp
      rw [hcongr]
      have hperm : List.Perm ((List.range messages.length).filter (fun i => kt.contains i)) kt := by
        rw [List.perm_ext_iff_of_nodup ((List.nodup_range _).filter _) hkt_nodup]
        intro a
        rw [List.mem_filter, List.mem_range]
        constructor
        · intro ⟨_, hc⟩
          exact List.elem_iff.mp hc
        · intro ha
          exact ⟨((hmem_ui a).mp (List.mem_cons_of_mem u (hkt_sub ha))).1,
            contains_eq_true_of_mem ha⟩
      rw [hperm.length_eq, hkt_len]
      simp
    · -- each tool-result message is untouched or rewritten to the sentinel
      intro i hi hut
      rw [hout, hkeep]
      by_cases hc : (u :: kt).contains i = true
      · rw [getD_rewritePass_keep _ _ 0 i hi (by simpa using hc)]
        exact Or.inl rfl
      · rw [Bool.not_eq_true] at hc
        rw [getD_rewritePass_omit _ _ 0 i hi hut (by simpa using hc)]
        exact Or.inr ⟨rfl, isSentinelContent_rewriteOmitted _⟩
    · -- non-user/tool messages are untouched
      intro i hi hut
      rw [hout, hkeep]
      exact getD_rewritePass_notuser _ _ 0 i hi hut
    · -- the first user message is untouched
      intro _
      rw [hout, hkeep, hui]
      simp only [List.headD_cons]
      exact getD_rewritePass_keep _ _ 0 u hu_lt_len
        (by simpa using contains_eq_true_of_mem (l := u :: kt) (by simp))

/-- A concrete history (initial task, two tool results in both content formats)
used to witness `c1_retention_pass`. -/
def historyC1 : List Message :=
  [⟨chars "user", Content.str (chars "task")⟩,
   ⟨chars "assistant", Content.str (chars "a1")⟩,
   ⟨chars "tool", Content.str (chars "r1")⟩,
   ⟨chars "assistant", Content.str (chars "a2")⟩,
   ⟨chars "user", Content.blocks [(chars "text", chars "r2")]⟩]

/-- Witness for C1: the retention property instantiated at a concrete history with `k = 1`. -/
theorem c1_retention_pass_witness : retentionPassSpec historyC1 1 :=
  c1_retention_pass historyC1 1 (by decide) (by decide) (by decide)

/-! ## Output formatter: boxed-answer extraction
Embeds `OutputFormatter._extract_boxed_content`
(`apps/miroflow-agent/src/io/output_formatter.py`). -/

/-- The opening curly brace character, written by code point. -/
def lbrace : Char := Char.ofNat 123

/-- The closing curly brace character, written by code point. -/
def rbrace : Char := Char.ofNat 125

/-- Word characters for the `\b` boundary of the `\\boxed\b` pattern. -/
def isWordChar (c : Char) : Bool := c.isAlphanum || c == '_'

/-- Match the literal `\boxed` with a trailing word boundary at the head of the
text; returns the remainder after the literal. -/
def matchBoxedHead : Str → Option Str
  | '\\' :: 'b' :: 'o' :: 'x' :: 'e' :: 'd' :: rest =>
      match rest with
      | [] => some []
      | c :: _ => if isWordChar c then none else some rest
  | _ => none

/-- The manual brace scanner of `_extract_boxed_content`, entered just after the
opening brace (`depth = 1`, `escaped = False`); `acc` holds the content scanned
so far, reversed.  `Sum.inl (content, rest)` is a matched close (the loop sets
`last_result = text[j+1:k]` and resumes at `k+1`); `Sum.inr content` is an
unterminated body running to end-of-string (`last_result = text[j+1:n]`). -/
def braceLoop : Str → Nat → Bool → Str → (Str × Str) ⊕ Str
  | [], _, _, acc => Sum.inr acc.reverse
  | c :: rest, depth, escaped, acc =>
    if escaped then braceLoop rest depth false (c :: acc)
    else if c == '\\' then braceLoop rest depth true (c :: acc)
    else if c == lbrace then braceLoop rest (depth + 1) false (c :: acc)
    else if c == rbrace then
      if depth == 1 then Sum.inl (acc.reverse, rest)
      else braceLoop rest (depth - 1) false (c :: acc)
    else braceLoop rest depth false (c :: acc)

/-- The search loop of `_extract_boxed_content`: repeatedly find the next
`\boxed` occurrence, skip whitespace, require an opening brace, and scan the
body; `last` tracks `last_result`.  The position `i` of the Python loop is the
current suffix; `fuel` bounds the iteration count (each step consumes at least
one character, so `length + 1` fuel is always enough). -/
def boxedLoop : Nat → Str → Option Str → Option Str
  | 0, _, last => last
  | _ + 1, [], last => last
  | fuel + 1, c :: cs, last =>
    match matchBoxedHead (c :: cs) with
    | none => boxedLoop fuel cs last
    | some afterBoxed =>
      let afterWs := afterBoxed.dropWhile Char.isWhitespace
      match afterWs with
      | [] => boxedLoop fuel [] last
      | d :: body =>
        if d == lbrace then
          match braceLoop body 1 false [] with
          | Sum.inl (content, rest) => boxedLoop fuel rest (some content)
          | Sum.inr content => boxedLoop fuel [] (some content)
        else boxedLoop fuel (d :: body) last

/-- Removes leading and trailing whitespace (`str.strip()`). -/
def trimChars (l : Str) : Str :=
  ((l.dropWhile Char.isWhitespace).reverse.dropWhile Char.isWhitespace).reverse

/-- The blacklist of extracted values treated as no answer (the Python list also
contains `None`, handled by the `Option` in `extractBoxedContent`). -/
def boxedBlackList : List Str :=
  [chars "?", chars "??", chars "???", chars "？", chars "……", chars "…",
   chars "...", chars "unknown"]

/-- `OutputFormatter._extract_boxed_content(text)`. -/
def extractBoxedContent (text : Str) : Str :=
  match boxedLoop (text.length + 1) text none with
  | none => []
  | some r => if boxedBlackList.contains r then [] else trimChars r

/-- Python's substring test `pattern in text`. -/
def containsSubstr (pattern text : Str) : Bool :=
  match text with
  | [] => pattern.isEmpty
  | _ :: rest => pattern.isPrefixOf text || containsSubstr pattern rest

theorem matchBoxedHead_eq_some {text rest : Str} (h : matchBoxedHead text = some rest) :
    ∃ tail, text = '\\' :: 'b' :: 'o' :: 'x' :: 'e' :: 'd' :: tail := by
  unfold matchBoxedHead at h
  split at h
  · exact ⟨_, rfl⟩
  · simp at h

theorem boxedTok_eq : chars "\\boxed" = ['\\', 'b', 'o', 'x', 'e', 'd'] := rfl

theorem containsSubstr_boxedTok {tail : Str} :
    containsSubstr (chars "\\boxed") ('\\' :: 'b' :: 'o' :: 'x' :: 'e' :: 'd' :: tail) = true := by
  rw [containsSubstr, boxedTok_eq]
  simp [List.isPrefixOf]

theorem containsSubstr_tail {p : Str} {c : Char} {cs : Str}
    (h : containsSubstr p (c :: cs) = false) : containsSubstr p cs = false := by
  rw [containsSubstr] at h
  exact (Bool.or_eq_false_iff.mp h).2

theorem boxedLoop_no_boxed (fuel : Nat) : ∀ (text : Str) (last : Option Str),
    containsSubstr (chars "\\boxed") text = false → boxedLoop fuel text last = last := by
  induction fuel with
  | zero => intro text last _; rfl
  | succ n ih =>
    intro text last h
    match text with
    | [] => rfl
    | c :: cs =>
      have hm : matchBoxedHead (c :: cs) = none := by
        cases hmb : matchBoxedHead (c :: cs) with
        | none => rfl
        | some r =>
          obtain ⟨tail, htail⟩ := matchBoxedHead_eq_some hmb
          rw [htail] at h
          rw [containsSubstr_boxedTok] at h
          exact absurd h (by simp)
      rw [boxedLoop, hm]
      exact ih cs last (containsSubstr_tail h)

/-- **C3.** The boxed-answer extractor returns the content of the last
`\boxed{...}` occurrence, handles nested and backslash-escaped braces, extracts
an unterminated trailing `\boxed{` to end-of-string, returns `""` for
blacklisted extracted values such as `"?"`, and returns `""` on any text
containing no `\boxed`. -/
theorem c3_extract_boxed (text : Str)
    (hnb : containsSubstr (chars "\\boxed") text = false) :
    extractBoxedContent (chars "pre \\boxed\x7bX\x7d mid \\boxed\x7bY\x7d post") = chars "Y" ∧
    extractBoxedContent (chars "intro \\boxed\x7ba \x7bnested\x7d b\x7d")
      = chars "a \x7bnested\x7d b" ∧
    extractBoxedContent (chars "esc \\boxed\x7ba \\\x7b b \\\x7d c\x7d")
      = chars "a \\\x7b b \\\x7d c" ∧
    extractBoxedContent (chars "start \\boxed\x7bunterm") = chars "unterm" ∧
    extractBoxedContent (chars "ans \\boxed\x7b?\x7d") = [] ∧
    extractBoxedContent text = [] := by
  refine ⟨by decide, by decide, by decide, by decide, by decide, ?_⟩
  unfold extractBoxedContent
  rw [boxedLoop_no_boxed _ _ _ hnb]

/-- Witness for C3: the general no-`\boxed` clause discharged at a concrete text. -/
theorem c3_extract_boxed_witness :
    extractBoxedContent (chars "no boxed content here") = [] :=
  (c3_extract_boxed (chars "no boxed content here") (by decide)).2.2.2.2.2

/-! ## Output formatter: final summary
Embeds the `boxed_result` computation of
`OutputFormatter.format_final_summary_and_log`. -/

/-- Modelled from the spec: the reserved `FORMAT_ERROR_MESSAGE` sentinel.  The
constant is defined in `prompt_utils`, whose definition is not present under
`src/`; only its identity as a fixed reserved value matters for the claims. -/
def FORMAT_ERROR_MESSAGE : Str := chars "FORMAT ERROR: no boxed answer was produced."

/-- The `boxed_result` value computed by `format_final_summary_and_log`: the
extracted boxed content when truthy, the `FORMAT_ERROR_MESSAGE` sentinel when
extraction yields nothing on a non-empty answer text, and the (empty) extraction
otherwise. -/
def formatFinalSummaryBoxedResult (finalAnswerText : Str) : Str :=
  let boxedResult := extractBoxedContent finalAnswerText
  if boxedResult ≠ [] then boxedResult
  else if finalAnswerText ≠ [] then FORMAT_ERROR_MESSAGE
  else boxedResult

/-- **C6.** For every non-empty final answer text on which the boxed extractor
yields no value (no `\boxed{...}`, or a blacklisted value), the final-summary
formatter returns the reserved `FORMAT_ERROR_MESSAGE` sentinel as the extracted
boxed result. -/
theorem c6_format_error_sentinel (t : Str) (hne : t ≠ [])
    (hext : extractBoxedContent t = []) :
    formatFinalSummaryBoxedResult t = FORMAT_ERROR_MESSAGE := by
  unfold formatFinalSummaryBoxedResult
  rw [hext]
  simp [hne]

/-- Witness for C6 at a concrete boxless answer text. -/
theorem c6_format_error_sentinel_witness :
    formatFinalSummaryBoxedResult (chars "the answer is unclear") = FORMAT_ERROR_MESSAGE :=
  c6_format_error_sentinel (chars "the answer is unclear") (by decide) (by decide)

/-! ## Tool manager
Embeds `ToolManagerV2.execute_tool_call` and its helper `inner_call_tool`
(`libs/miroflow-tools/src/miroflow_tools/manager_v2.py`). -/

/-- A content block of an MCP `tools/call` response: either a `TextContent`
block or any other block type. -/
inductive ContentBlock where
  | textBlock : Str → ContentBlock
  | otherBlock : ContentBlock
deriving DecidableEq, Repr

/-- The result object of `session.call_tool`: its `content` attribute may be
absent (`None`) or a list of blocks. -/
structure CallToolResult where
  content : Option (List ContentBlock)
deriving DecidableEq, Repr

/-- The text computed by `inner_call_tool` from a successful `call_tool`
response: the text of the last content block when it is a `TextContent`,
otherwise the empty string. -/
def innerCallToolText (toolResult : Option CallToolResult) : Str :=
  match toolResult with
  | none => []
  | some tr =>
    match tr.content with
    | none => []
    | some blocks =>
      if blocks.length > 0 then
        match blocks.getLast? with
        | some (ContentBlock.textBlock t) => t
        | _ => []
      else []

/-- Outcome of connecting to a server and running a tool, seen from
`execute_tool_call`: the underlying call either returns a result, raises inside
`inner_call_tool` (caught and returned as `(None, e)`), or the MCP session
itself raises (caught by the outer `except`). -/
inductive SessionOutcome where
  | success : Option CallToolResult → SessionOutcome
  | toolError : Str → SessionOutcome
  | sessionError : Str → SessionOutcome
deriving DecidableEq, Repr

/-- The dictionary returned by `execute_tool_call`: `server_name` and
`tool_name` always present, plus exactly one of `result` / `error` (built by the
local helper `rv`). -/
structure ToolCallExecutionResult where
  server_name : Str
  tool_name : Str
  result : Option Str
  error : Option Str
deriving DecidableEq, Repr

/-- The local `rv` helper of `execute_tool_call`:
`{server_name, tool_name} | ({error: exc} if exc is not None else {result: res})`. -/
def rv (serverName toolName : Str) (exc : Option Str) (res : Option Str) :
    ToolCallExecutionResult :=
  match exc with
  | some e => ⟨serverName, toolName, none, some e⟩
  | none => ⟨serverName, toolName, res, none⟩

/-- `ToolManagerV2.execute_tool_call(server_name, tool_name, arguments)`.  The
configured servers are abstracted by the list of their names (`server_dict`
keys); the transport behaviour by a `SessionOutcome`. -/
def executeToolCall (serverNames : List Str) (serverName toolName : Str)
    (outcome : SessionOutcome) : ToolCallExecutionResult :=
  if !(serverNames.contains serverName) then
    rv serverName toolName
      (some (chars "Server '" ++ serverName ++ chars "' not found.")) none
  else
    match outcome with
    | SessionOutcome.toolError e =>
      rv serverName toolName (some (chars "Tool execution failed: " ++ e)) none
    | SessionOutcome.sessionError e =>
      rv serverName toolName (some (chars "MCP session error: " ++ e)) none
    | SessionOutcome.success r =>
      rv serverName toolName none (some (innerCallToolText r))

/-- **C7.** For every successfully executed tool call, the result text equals
the text of the last content block of the server's response, and equals the
empty string when the response has no content blocks, the last block is not a
text block, or the content attribute is absent. -/
theorem c7_last_text_block :
    (∀ (bs : List ContentBlock) (t : Str),
      innerCallToolText (some ⟨some (bs ++ [ContentBlock.textBlock t])⟩) = t) ∧
    (∀ bs : List ContentBlock,
      innerCallToolText (some ⟨some (bs ++ [ContentBlock.otherBlock])⟩) = []) ∧
    innerCallToolText (some ⟨some []⟩) = [] ∧
    innerCallToolText (some ⟨none⟩) = [] ∧
    innerCallToolText none = [] := by
  refine ⟨?_, ?_, rfl, rfl, rfl⟩
  · intro bs t
    simp [innerCallToolText, List.getLast?_concat]
  · intro bs
    simp [innerCallToolText, List.getLast?_concat]

/-- **C2.** `execute_tool_call` always returns a dictionary with the
`server_name` and `tool_name` it was given and exactly one of `result`/`error`;
an unknown server yields the not-found error without throwing, and every
underlying connection or tool failure is reported as an error result. -/
theorem c2_execute_tool_call (serverNames : List Str) (serverName toolName : Str)
    (outcome : SessionOutcome) :
    (executeToolCall serverNames serverName toolName outcome).server_name = serverName ∧
    (executeToolCall serverNames serverName toolName outcome).tool_name = toolName ∧
    ((executeToolCall serverNames serverName toolName outcome).result.isSome
      = !(executeToolCall serverNames serverName toolName outcome).error.isSome) ∧
    (serverNames.contains serverName = false →
      (executeToolCall serverNames serverName toolName outcome).error
        = some (chars "Server '" ++ serverName ++ chars "' not found.")) ∧
    (∀ e : Str, serverNames.contains serverName = true →
      outcome = SessionOutcome.toolError e →
      (executeToolCall serverNames serverName toolName outcome).error
        = some (chars "Tool execution failed: " ++ e)) ∧
    (∀ e : Str, serverNames.contains serverName = true →
      outcome = SessionOutcome.sessionError e →
      (executeToolCall serverNames serverName toolName outcome).error
        = some (chars "MCP session error: " ++ e)) ∧
    (∀ r : Option CallToolResult, serverNames.contains serverName = true →
      outcome = SessionOutcome.success r →
      (executeToolCall serverNames serverName toolName outcome).result
        = some (innerCallToolText r)) := by
  by_cases hm : serverName ∈ serverNames
  · have hc : serverNames.contains serverName = true := List.elem_iff.mpr hm
    cases outcome <;> simp [executeToolCall, rv, hm, hc]
  · have hc : serverNames.contains serverName = false := by
      rw [← Bool.not_eq_true]
      intro h
      exact hm (List.elem_iff.mp h)
    simp [executeToolCall, rv, hm, hc]

/-- Witness for C2 at a concrete unknown-server call. -/
theorem c2_execute_tool_call_witness :
    (executeToolCall [chars "tool-python"] (chars "nosuch") (chars "run_python_code")
        (SessionOutcome.success none)).error
      = some (chars "Server '" ++ chars "nosuch" ++ chars "' not found.") :=
  (c2_execute_tool_call [chars "tool-python"] (chars "nosuch") (chars "run_python_code")
      (SessionOutcome.success none)).2.2.2.1 (by decide)

/-! ## Output formatter: tool-result re-attachment
Embeds `OutputFormatter.format_tool_result_for_user`. -/

/-- The `content` string computed by `format_tool_result_for_user` (the function
wraps it as `{"type": "text", "text": content}`). -/
def formatToolResultForUser (r : ToolCallExecutionResult) : Str :=
  match r.error with
  | some e =>
    chars "Tool call to " ++ r.tool_name ++ chars " on " ++ r.server_name ++
      chars " failed. Error: " ++ e
  | none =>
    match r.result with
    | some content =>
      if content.length > 100000 then content.take 100000 ++ chars "\n... [Result truncated]"
      else content
    | none =>
      chars "Tool call to " ++ r.tool_name ++ chars " on " ++ r.server_name ++
        chars " completed, but produced no specific output or result."

/-- **C8.** For every tool result carrying a result string (and no error), the
content re-attached as a user message is the result unchanged when its length is
at most 100,000 characters, and otherwise the first 100,000 characters followed
by the truncation marker. -/
theorem c8_truncation (r : ToolCallExecutionResult) (s : Str)
    (herr : r.error = none) (hres : r.result = some s) :
    (s.length ≤ 100000 → formatToolResultForUser r = s) ∧
    (s.length > 100000 →
      formatToolResultForUser r = s.take 100000 ++ chars "\n... [Result truncated]") := by
  constructor
  · intro hle
    unfold formatToolResultForUser
    rw [herr, hres]
    simp only []
    rw [if_neg (by omega)]
  · intro hgt
    unfold formatToolResultForUser
    rw [herr, hres]
    simp only []
    rw [if_pos (by omega)]

/-- Witness for C8 at a concrete short result. -/
theorem c8_truncation_witness :
    formatToolResultForUser ⟨chars "s", chars "t", some (chars "ok"), none⟩ = chars "ok" :=
  (c8_truncation ⟨chars "s", chars "t", some (chars "ok"), none⟩ (chars "ok")
      rfl rfl).1 (by decide)

/-! ## Response parser: tool/server name correction
Embeds `parse_tool_server_mapping` and `fix_server_name_in_text`
(`apps/miroflow-agent/src/utils/parsing_utils.py`). -/

/-- Python `text.split("\n")`. -/
def splitLines : Str → List Str
  | [] => [[]]
  | c :: rest =>
    if c == '\n' then [] :: splitLines rest
    else
      match splitLines rest with
      | [] => [[c]]
      | l :: ls => (c :: l) :: ls

/-- `re.match(r"<heading>\s*(.+)", line)` followed by `.group(1).strip()`: the
match succeeds exactly when the heading is a proper prefix of the line (the
`(.+)` group needs at least one character), and the stripped group is then the
trimmed remainder. -/
def matchHeading (heading line : Str) : Option Str :=
  if heading.isPrefixOf line && decide (heading.length < line.length)
  then some (trimChars (line.drop heading.length)) else none

/-- The three target tools subject to name correction. -/
def targetTools : List Str :=
  [chars "run_python_code", chars "google_search", chars "scrape_and_extract_info"]

/-- Python `dict` assignment `mapping[k] = v` on an insertion-ordered
association list. -/
def updateAssoc (m : List (Str × Str)) (k v : Str) : List (Str × Str) :=
  if m.any (fun p => p.1 == k) then m.map (fun p => if p.1 == k then (k, v) else p)
  else m ++ [(k, v)]

/-- Python `mapping.get(k)` on the association list. -/
def lookupAssoc (m : List (Str × Str)) (k : Str) : Option Str :=
  (m.find? (fun p => p.1 == k)).map (fun p => p.2)

/-- One iteration of the line loop of `parse_tool_server_mapping`: returns the
updated `current_server` and mapping.  An all-whitespace heading remainder
yields the falsy `""` server, rejected at the tool line by the
`and current_server` truthiness test. -/
def parseMappingStep (line : Str) (currentServer : Option Str)
    (mapping : List (Str × Str)) : Option Str × List (Str × Str) :=
  match matchHeading (chars "## Server name:") line with
  | some s => (some s, mapping)
  | none =>
    match matchHeading (chars "### Tool name:") line, currentServer with
    | some toolName, some server =>
      if server ≠ [] && targetTools.contains toolName
      then (currentServer, updateAssoc mapping toolName server)
      else (currentServer, mapping)
    | _, _ => (currentServer, mapping)

/-- The line loop of `parse_tool_server_mapping`, carrying `current_server`
(`none` initially). -/
def parseMappingLines : List Str → Option Str → List (Str × Str) → List (Str × Str)
  | [], _, mapping => mapping
  | line :: rest, currentServer, mapping =>
    parseMappingLines rest (parseMappingStep line currentServer mapping).1
      (parseMappingStep line currentServer mapping).2

/-- `parse_tool_server_mapping(system_prompt)`. -/
def parseToolServerMapping (systemPrompt : Str) : List (Str × Str) :=
  parseMappingLines (splitLines systemPrompt) none []

/-- Python `text.replace(old, new)` (all occurrences, left to right); `fuel`
bounds the scan, one unit per consumed character of `text`. -/
def replaceAllFuel (fuel : Nat) (old new : Str) : Str → Str
  | [] => []
  | c :: rest =>
    match fuel with
    | 0 => c :: rest
    | fuel + 1 =>
      if old.isPrefixOf (c :: rest)
      then new ++ replaceAllFuel fuel old new ((c :: rest).drop old.length)
      else c :: replaceAllFuel fuel old new rest

/-- Python `text.replace(old, new)` with sufficient fuel (`old` is non-empty in
every use, so each step consumes at least one character). -/
def replaceStr (old new text : Str) : Str := replaceAllFuel text.length old new text

/-- `<tool_name>NAME</tool_name>`. -/
def toolNameTag (name : Str) : Str :=
  chars "<tool_name>" ++ name ++ chars "</tool_name>"

/-- `<server_name>NAME</server_name>`. -/
def serverNameTag (name : Str) : Str :=
  chars "<server_name>" ++ name ++ chars "</server_name>"

/-- Head match of the pattern
`<server_name>[^<]+</server_name>(\s*<tool_name>TOOL</tool_name>)`: the greedy
`[^<]+` runs to the first `<`, which must start the closing literal, and the
`\s*` must run to the tool tag (which starts with a non-whitespace `<`).
Returns the captured group `\1` (whitespace plus tool tag) and the remainder. -/
def matchServerPatternHead (toolTag text : Str) : Option (Str × Str) :=
  if (chars "<server_name>").isPrefixOf text then
    let afterOpen := text.drop (chars "<server_name>").length
    let inner := afterOpen.takeWhile (fun c => c != '<')
    let rest1 := afterOpen.dropWhile (fun c => c != '<')
    if inner ≠ [] && (chars "</server_name>").isPrefixOf rest1 then
      let rest2 := rest1.drop (chars "</server_name>").length
      let ws := rest2.takeWhile Char.isWhitespace
      let rest3 := rest2.dropWhile Char.isWhitespace
      if toolTag.isPrefixOf rest3 then some (ws ++ toolTag, rest3.drop toolTag.length)
      else none
    else none
  else none

/-- `re.sub` for the server-name pattern: scan left to right, replacing each
non-overlapping match of the server tag followed by the given tool tag with the
correct server tag plus the captured group. -/
def serverSub (fuel : Nat) (toolTag correctServerTag : Str) : Str → Str
  | [] => []
  | c :: rest =>
    match fuel with
    | 0 => c :: rest
    | fuel + 1 =>
      match matchServerPatternHead toolTag (c :: rest) with
      | some (group, after) => correctServerTag ++ group ++ serverSub fuel toolTag correctServerTag after
      | none => c :: serverSub fuel toolTag correctServerTag rest

/-- First phase of `fix_server_name_in_text`: rewrite the commonly-misnamed
`python` / `python_code` tool tags to `run_python_code` when the mapping
declares `run_python_code`. -/
def fixPythonPhase (mapping : List (Str × Str)) (text : Str) : Str :=
  if (lookupAssoc mapping (chars "run_python_code")).isSome then
    let tag1 := toolNameTag (chars "python")
    let t1 := if containsSubstr tag1 text
              then replaceStr tag1 (toolNameTag (chars "run_python_code")) text else text
    let tag2 := toolNameTag (chars "python_code")
    if containsSubstr tag2 t1
    then replaceStr tag2 (toolNameTag (chars "run_python_code")) t1 else t1
  else text

/-- Second phase of `fix_server_name_in_text`: for each mapped target tool whose
tag occurs in the text and whose correct server tag does not, substitute the
emitted server tag with the canonical one. -/
def fixServerPhase : List (Str × Str) → Str → Str
  | [], text => text
  | (toolName, correctServer) :: rest, text =>
    let toolTag := toolNameTag toolName
    if !(containsSubstr toolTag text) then fixServerPhase rest text
    else
      let correctTag := serverNameTag correctServer
      if containsSubstr correctTag text then fixServerPhase rest text
      else fixServerPhase rest (serverSub text.length toolTag correctTag text)

/-- `fix_server_name_in_text(text)` with the cached mapping made explicit. -/
def fixServerNameInText (mapping : List (Str × Str)) (text : Str) : Str :=
  if mapping = [] then text
  else fixServerPhase mapping (fixPythonPhase mapping text)

theorem splitLines_append_cons (a b : Str) (ha : '\n' ∉ a) :
    splitLines (a ++ '\n' :: b) = a :: splitLines b := by
  induction a with
  | nil => simp [splitLines]
  | cons c a' ih =>
    have hc : (c == '\n') = false := by
      simp only [beq_eq_false_iff_ne, ne_eq]
      intro h
      exact ha (h ▸ List.mem_cons_self c a')
    have ha' : '\n' ∉ a' := fun h => ha (List.mem_cons_of_mem c h)
    rw [List.cons_append, splitLines, hc]
    simp only [Bool.false_eq_true, if_false]
    rw [ih ha']

theorem splitLines_no_newline (b : Str) (hb : '\n' ∉ b) : splitLines b = [b] := by
  induction b with
  | nil => rfl
  | cons c b' ih =>
    have hc : (c == '\n') = false := by
      simp only [beq_eq_false_iff_ne, ne_eq]
      intro h
      exact hb (h ▸ List.mem_cons_self c b')
    have hb' : '\n' ∉ b' := fun h => hb (List.mem_cons_of_mem c h)
    rw [splitLines, hc]
    simp only [Bool.false_eq_true, if_false]
    rw [ih hb']

theorem dropWhile_ws_space (S : Str) :
    (' ' :: S).dropWhile Char.isWhitespace = S.dropWhile Char.isWhitespace := by
  rw [List.dropWhile_cons]
  simp

theorem trimChars_space_cons (S : Str) (hS : trimChars S = S) : trimChars (' ' :: S) = S := by
  unfold trimChars at hS ⊢
  rw [dropWhile_ws_space]
  exact hS

/-- The server-heading line `## Server name: S` parses to the server name `S`
(for a trimmed, non-empty `S`). -/
theorem matchHeading_server (S : Str) (hS : trimChars S = S) :
    matchHeading (chars "## Server name:") (chars "## Server name: " ++ S) = some S := by
  have hform : chars "## Server name: " ++ S = chars "## Server name:" ++ (' ' :: S) := rfl
  rw [hform]
  unfold matchHeading
  rw [List.isPrefixOf_iff_prefix.mpr (List.prefix_append _ _)]
  have hlen : (chars "## Server name:").length < (chars "## Server name:" ++ (' ' :: S)).length := by
    rw [List.length_append]
    simp
  rw [decide_eq_true hlen]
  simp only [Bool.and_self, if_true]
  rw [List.drop_left]
  rw [trimChars_space_cons S hS]

theorem parseMappingStep_server {line s : Str} (cs : Option Str) (m : List (Str × Str))
    (h : matchHeading (chars "## Server name:") line = some s) :
    parseMappingStep line cs m = (some s, m) := by
  simp [parseMappingStep, h]

theorem parseMappingStep_tool {line t : Str} (s : Str) (m : List (Str × Str))
    (h0 : matchHeading (chars "## Server name:") line = none)
    (h1 : matchHeading (chars "### Tool name:") line = some t)
    (h2 : s ≠ []) (h3 : targetTools.contains t = true) :
    parseMappingStep line (some s) m = (some s, updateAssoc m t s) := by
  have h3' : t ∈ targetTools := List.elem_iff.mp h3
  simp [parseMappingStep, h0, h1, h2, h3, h3']

theorem parseMappingLines_cons (line : Str) (rest : List Str) (cs : Option Str)
    (m : List (Str × Str)) :
    parseMappingLines (line :: rest) cs m
      = parseMappingLines rest (parseMappingStep line cs m).1 (parseMappingStep line cs m).2 :=
  rfl

theorem fixPythonPhase_no_tags (mapping : List (Str × Str)) (text : Str)
    (h1 : containsSubstr (toolNameTag (chars "python")) text = false)
    (h2 : containsSubstr (toolNameTag (chars "python_code")) text = false) :
    fixPythonPhase mapping text = text := by
  simp [fixPythonPhase, h1, h2]

theorem fixServerPhase_no_tags (mapping : List (Str × Str)) (text : Str)
    (h : ∀ p ∈ mapping, containsSubstr (toolNameTag p.1) text = false) :
    fixServerPhase mapping text = text := by
  induction mapping with
  | nil => rfl
  | cons p rest ih =>
    rw [fixServerPhase]
    rw [show containsSubstr (toolNameTag p.1) text = false from h p (List.mem_cons_self _ _)]
    simp only [Bool.not_false, if_true]
    exact ih (fun q hq => h q (List.mem_cons_of_mem p hq))

set_option maxRecDepth 16384 in
/-- **C4.** For every system prompt declaring `## Server name: S` followed by
`### Tool name: run_python_code`, the mapping parser extracts `(run_python_code, S)`;
with `run_python_code` declared, `<tool_name>python</tool_name>` and
`<tool_name>python_code</tool_name>` are rewritten to
`<tool_name>run_python_code</tool_name>` and a disagreeing `server_name` tag on
a target tool is replaced by the canonical server; a text mentioning no target
tool and no misnamed python tag is left unchanged. -/
theorem c4_name_correction (S : Str) (hS1 : trimChars S = S) (hS2 : S ≠ [])
    (hS3 : '\n' ∉ S) :
    parseToolServerMapping
        (chars "## Server name: " ++ S ++ chars "\n### Tool name: run_python_code")
      = [(chars "run_python_code", S)] ∧
    fixServerNameInText [(chars "run_python_code", chars "tool-python")]
        (chars "<use_mcp_tool>\n<server_name>code</server_name>\n<tool_name>python</tool_name>\n<arguments>\x7b\x7d</arguments>\n</use_mcp_tool>")
      = chars "<use_mcp_tool>\n<server_name>tool-python</server_name>\n<tool_name>run_python_code</tool_name>\n<arguments>\x7b\x7d</arguments>\n</use_mcp_tool>" ∧
    fixServerNameInText [(chars "run_python_code", chars "tool-python")]
        (chars "<use_mcp_tool><server_name>tool-python</server_name><tool_name>python_code</tool_name><arguments>\x7b\x7d</arguments></use_mcp_tool>")
      = chars "<use_mcp_tool><server_name>tool-python</server_name><tool_name>run_python_code</tool_name><arguments>\x7b\x7d</arguments></use_mcp_tool>" ∧
    (∀ (mapping : List (Str × Str)) (text : Str),
      containsSubstr (toolNameTag (chars "python")) text = false →
      containsSubstr (toolNameTag (chars "python_code")) text = false →
      (∀ p ∈ mapping, containsSubstr (toolNameTag p.1) text = false) →
      fixServerNameInText mapping text = text) := by
  refine ⟨?_, by decide, by decide, ?_⟩
  · -- the mapping parse
    have hsplit : splitLines
        (chars "## Server name: " ++ S ++ chars "\n### Tool name: run_python_code")
        = (chars "## Server name: " ++ S) :: [chars "### Tool name: run_python_code"] := by
      have hform : chars "## Server name: " ++ S ++ chars "\n### Tool name: run_python_code"
          = (chars "## Server name: " ++ S) ++ '\n' :: chars "### Tool name: run_python_code" := by
        rw [List.append_assoc]
        rfl
      rw [hform]
      rw [splitLines_append_cons _ _ ?ha]
      case ha =>
        intro h
        rcases List.mem_append.mp h with h | h
        · revert h
          decide
        · exact hS3 h
      rw [splitLines_no_newline _ (by decide)]
    unfold parseToolServerMapping
    rw [hsplit]
    rw [parseMappingLines_cons, parseMappingStep_server _ _ (matchHeading_server S hS1)]
    rw [parseMappingLines_cons,
        parseMappingStep_tool (t := chars "run_python_code") S []
          (by decide) (by decide) hS2 (by decide)]
    rfl
  · -- unrelated texts are unchanged
    intro mapping text h1 h2 h3
    unfold fixServerNameInText
    by_cases hmap : mapping = []
    · rw [if_pos hmap]
    · rw [if_neg hmap]
      rw [fixPythonPhase_no_tags mapping text h1 h2]
      exact fixServerPhase_no_tags mapping text h3

/-- Witness for C4 at the concrete server name `tool-python`. -/
theorem c4_name_correction_witness :
    parseToolServerMapping
        (chars "## Server name: " ++ chars "tool-python" ++
          chars "\n### Tool name: run_python_code")
      = [(chars "run_python_code", chars "tool-python")] :=
  (c4_name_correction (chars "tool-python") (by decide) (by decide) (by decide)).1

/-! ## Argument parsing: JSON values
A strict JSON parser embedding `json.loads` as used by `safe_json_loads` and
the tool-call parsers (`apps/miroflow-agent/src/utils/parsing_utils.py`).
Numeric literals are kept as their lexemes (no claim depends on numeric
values). -/

/-- JSON values (Python dicts are insertion-ordered association lists with
last-wins assignment). -/
inductive Json where
  | null : Json
  | bool : Bool → Json
  | num : Str → Json
  | str : Str → Json
  | arr : List Json → Json
  | obj : List (Str × Json) → Json

/-- JSON whitespace accepted between tokens by `json.loads`. -/
def isJsonWs (c : Char) : Bool :=
  c == ' ' || c == '\t' || c == '\n' || c == '\r'

/-- Python dict assignment for object entries (last assignment wins, insertion
order preserved). -/
def jsonObjInsert (m : List (Str × Json)) (k : Str) (v : Json) : List (Str × Json) :=
  if m.any (fun p => p.1 == k) then m.map (fun p => if p.1 == k then (k, v) else p)
  else m ++ [(k, v)]

/-- Value of a hexadecimal digit. -/
def hexVal (c : Char) : Option Nat :=
  if '0' ≤ c ∧ c ≤ '9' then some (c.toNat - 48)
  else if 'a' ≤ c ∧ c ≤ 'f' then some (c.toNat - 87)
  else if 'A' ≤ c ∧ c ≤ 'F' then some (c.toNat - 55)
  else none

/-- Single-character JSON string escapes. -/
def simpleEscape (e : Char) : Option Char :=
  if e == '"' then some '"'
  else if e == '\\' then some '\\'
  else if e == '/' then some '/'
  else if e == 'b' then some (Char.ofNat 8)
  else if e == 'f' then some (Char.ofNat 12)
  else if e == 'n' then some '\n'
  else if e == 'r' then some '\r'
  else if e == 't' then some '\t'
  else none

/-- Body of a JSON string (after the opening quote): returns the decoded string
and the remainder after the closing quote.  Strict mode: raw control characters
are rejected; `\uXXXX` decodes to the corresponding code point (surrogate
pairing is not modelled; no claim exercises it). -/
def parseJsonString : Str → Option (Str × Str)
  | [] => none
  | c :: rest =>
    if c == '"' then some ([], rest)
    else if c == '\\' then
      match rest with
      | [] => none
      | e :: rest2 =>
        if e == 'u' then
          match rest2 with
          | h1 :: h2 :: h3 :: h4 :: rest3 =>
            match hexVal h1, hexVal h2, hexVal h3, hexVal h4 with
            | some a, some b, some c', some d =>
              match parseJsonString rest3 with
              | some (s, r) => some (Char.ofNat (((a * 16 + b) * 16 + c') * 16 + d) :: s, r)
              | none => none
            | _, _, _, _ => none
          | _ => none
        else
          match simpleEscape e with
          | some d =>
            match parseJsonString rest2 with
            | some (s, r) => some (d :: s, r)
            | none => none
          | none => none
    else if c.toNat < 32 then none
    else
      match parseJsonString rest with
      | some (s, r) => some (c :: s, r)
      | none => none

/-- A JSON numeric literal at the head of the text: returns the lexeme and the
remainder (strict grammar: no leading zeros, `.` and exponent need digits). -/
def parseNumber (t : Str) : Option (Str × Str) :=
  let sign : Str × Str :=
    match t with
    | '-' :: r => (['-'], r)
    | _ => ([], t)
  let t1 := sign.2
  let intDigits := t1.takeWhile Char.isDigit
  let r2 := t1.dropWhile Char.isDigit
  if intDigits = [] then none
  else if intDigits.length > 1 && (intDigits.headD '0' == '0') then none
  else
    let frac : Str × Str :=
      match r2 with
      | '.' :: r =>
        let d := r.takeWhile Char.isDigit
        if d = [] then (([] : Str), r2) else ('.' :: d, r.dropWhile Char.isDigit)
      | _ => ([], r2)
    let r3 := frac.2
    let ex : Str × Str :=
      match r3 with
      | e :: r =>
        if e == 'e' || e == 'E' then
          let s2 : Str × Str :=
            match r with
            | '+' :: r' => (['+'], r')
            | '-' :: r' => (['-'], r')
            | _ => ([], r)
          let d := s2.2.takeWhile Char.isDigit
          if d = [] then (([] : Str), r3)
          else (e :: (s2.1 ++ d), s2.2.dropWhile Char.isDigit)
        else ([], r3)
      | [] => ([], r3)
    some (sign.1 ++ intDigits ++ frac.1 ++ ex.1, ex.2)

mutual

/-- A JSON value at the head of the text (after optional whitespace); `fuel`
bounds the recursion (`2 * length + 2` always suffices). -/
def parseValue : Nat → Str → Option (Json × Str)
  | 0, _ => none
  | fuel + 1, text =>
    let t := text.dropWhile isJsonWs
    match t with
    | [] => none
    | c :: rest =>
      if c == '"' then
        match parseJsonString rest with
        | some (s, r) => some (Json.str s, r)
        | none => none
      else if c == '[' then
        let r1 := rest.dropWhile isJsonWs
        match r1 with
        | ']' :: r2 => some (Json.arr [], r2)
        | _ =>
          match parseArrayItems fuel r1 [] with
          | some (items, r2) => some (Json.arr items, r2)
          | none => none
      else if c == lbrace then
        let r1 := rest.dropWhile isJsonWs
        match r1 with
        | d :: r2 =>
          if d == rbrace then some (Json.obj [], r2)
          else parseObjItems fuel r1 []
        | [] => none
      else if (chars "true").isPrefixOf t then some (Json.bool true, t.drop 4)
      else if (chars "false").isPrefixOf t then some (Json.bool false, t.drop 5)
      else if (chars "null").isPrefixOf t then some (Json.null, t.drop 4)
      else if (chars "NaN").isPrefixOf t then some (Json.num (chars "NaN"), t.drop 3)
      else if (chars "Infinity").isPrefixOf t then some (Json.num (chars "Infinity"), t.drop 8)
      else if (chars "-Infinity").isPrefixOf t then
        some (Json.num (chars "-Infinity"), t.drop 9)
      else
        match parseNumber t with
        | some (lex, r) => some (Json.num lex, r)
        | none => none

/-- Comma-separated array items up to the closing bracket. -/
def parseArrayItems : Nat → Str → List Json → Option (List Json × Str)
  | 0, _, _ => none
  | fuel + 1, text, acc =>
    match parseValue fuel text with
    | none => none
    | some (v, r) =>
      let r1 := r.dropWhile isJsonWs
      match r1 with
      | ',' :: r2 => parseArrayItems fuel r2 (acc ++ [v])
      | ']' :: r2 => some (acc ++ [v], r2)
      | _ => none

/-- Comma-separated object entries up to the closing brace. -/
def parseObjItems : Nat → Str → List (Str × Json) → Option (Json × Str)
  | 0, _, _ => none
  | fuel + 1, text, acc =>
    let t := text.dropWhile isJsonWs
    match t with
    | c :: rest =>
      if c == '"' then
        match parseJsonString rest with
        | none => none
        | some (k, r) =>
          let r1 := r.dropWhile isJsonWs
          match r1 with
          | ':' :: r2 =>
            match parseValue fuel r2 with
            | none => none
            | some (v, r3) =>
              let r4 := r3.dropWhile isJsonWs
              match r4 with
              | ',' :: r5 => parseObjItems fuel r5 (jsonObjInsert acc k v)
              | d :: r5 =>
                if d == rbrace then some (Json.obj (jsonObjInsert acc k v), r5) else none
              | [] => none
          | _ => none
      else none
    | [] => none

end

/-- `json.loads(s)`: parse one value and require only whitespace afterwards. -/
def jsonLoads (s : Str) : Option Json :=
  match parseValue (2 * s.length + 2) s with
  | none => none
  | some (v, rest) => if rest.dropWhile isJsonWs = [] then some v else none

/-! ## Argument parsing: `safe_json_loads`
Embeds `safe_json_loads` (`apps/miroflow-agent/src/utils/parsing_utils.py`). -/

/-- Modelled from the spec: the third-party `json_repair.repair_json` pass used
by `safe_json_loads` is not part of this repository.  The spec exercises it on
Python-literal inputs, so it is modelled as rewriting single quotes to double
quotes and the Python constants `True`/`False`/`None` to JSON
`true`/`false`/`null`. -/
def repairJson (s : Str) : Str :=
  replaceStr (chars "'") (chars "\"")
    (replaceStr (chars "True") (chars "true")
      (replaceStr (chars "False") (chars "false")
        (replaceStr (chars "None") (chars "null") s)))

/-- `safe_json_loads(arguments_str)`: strict parse, then repair, then the
error object. -/
def safeJsonLoads (argumentsStr : Str) : Json :=
  match jsonLoads argumentsStr with
  | some v => v
  | none =>
    match jsonLoads (repairJson argumentsStr) with
    | some v => v
    | none =>
      Json.obj [(chars "error", Json.str (chars "Failed to parse arguments")),
                (chars "raw", Json.str argumentsStr)]

/-- **C5.** `safe_json_loads` is total (never raises): it returns the strict
parse of valid JSON; the Python-literal input `{'a': True, 'b': None}` repairs
to `{"a": true, "b": null}`; and when strict parsing and repair both fail it
returns exactly `{"error": "Failed to parse arguments", "raw": <input>}`. -/
theorem c5_safe_json_loads (s t : Str) (v : Json) (hs : jsonLoads s = some v)
    (ht1 : jsonLoads t = none) (ht2 : jsonLoads (repairJson t) = none) :
    safeJsonLoads s = v ∧
    safeJsonLoads (chars "\x7b'a': True, 'b': None\x7d")
      = Json.obj [(chars "a", Json.bool true), (chars "b", Json.null)] ∧
    safeJsonLoads t
      = Json.obj [(chars "error", Json.str (chars "Failed to parse arguments")),
                  (chars "raw", Json.str t)] := by
  refine ⟨?_, by rfl, ?_⟩
  · unfold safeJsonLoads
    rw [hs]
  · unfold safeJsonLoads
    rw [ht1, ht2]

/-- Witness for C5: a valid JSON input and an unrepairable input. -/
theorem c5_safe_json_loads_witness :
    safeJsonLoads (chars "[null]") = Json.arr [Json.null] ∧
    safeJsonLoads (chars "not json at all(")
      = Json.obj [(chars "error", Json.str (chars "Failed to parse arguments")),
                  (chars "raw", Json.str (chars "not json at all("))] :=
  ⟨(c5_safe_json_loads (chars "[null]") (chars "not json at all(") (Json.arr [Json.null])
      rfl rfl rfl).1,
   (c5_safe_json_loads (chars "[null]") (chars "not json at all(") (Json.arr [Json.null])
      rfl rfl rfl).2.2⟩

/-! ## Response parsing: tool calls
Embeds `filter_none_values` and `parse_llm_response_for_tool_calls`
(`apps/miroflow-agent/src/utils/parsing_utils.py`). -/

/-- `filter_none_values(arguments)`: drop top-level `None` values of a dict,
leave non-dicts unchanged. -/
def filterNoneValues : Json → Json
  | Json.obj kvs =>
    Json.obj (kvs.filter (fun kv =>
      match kv.2 with
      | Json.null => false
      | _ => true))
  | v => v

/-- `name.rsplit("-", maxsplit=1)` when `"-" in name`. -/
def rsplitLastDash (name : Str) : Option (Str × Str) :=
  match name.reverse.findIdx? (fun c => c == '-') with
  | none => none
  | some j =>
    let i := name.length - 1 - j
    some (name.take i, name.drop (i + 1))

/-- The `server_name`/`tool_name` split applied to a combined function name. -/
def splitServerTool (name : Str) : Str × Str :=
  match rsplitLastDash name with
  | some p => p
  | none => (chars "unknown", name)

/-- The lenient fix chain of the completion-API branch:
`.replace("'", '"').replace("None", "null").replace("True", "true").replace("False", "false")`. -/
def fixPythonLiterals (s : Str) : Str :=
  replaceStr (chars "False") (chars "false")
    (replaceStr (chars "True") (chars "true")
      (replaceStr (chars "None") (chars "null")
        (replaceStr (chars "'") (chars "\"") s)))

/-- Argument parsing of the completion-API branch: strict parse, then the fix
chain, then the error object. -/
def completionArguments (argumentsStr : Str) : Json :=
  match jsonLoads argumentsStr with
  | some v => v
  | none =>
    match jsonLoads (fixPythonLiterals argumentsStr) with
    | some v => v
    | none =>
      Json.obj [(chars "error", Json.str (chars "Failed to parse arguments")),
                (chars "raw", Json.str argumentsStr)]

/-- Lazy capture up to the first occurrence of `closeTag`: returns the captured
prefix and the remainder after the tag; `none` when the tag never occurs. -/
def captureUntil (closeTag : Str) : Str → Option (Str × Str)
  | [] => none
  | c :: rest =>
    if closeTag.isPrefixOf (c :: rest) then some ([], (c :: rest).drop closeTag.length)
    else
      match captureUntil closeTag rest with
      | some (pre, after) => some (c :: pre, after)
      | none => none

/-- Lazy capture of the `<arguments>` body: ends at the first `</arguments>`
that is followed (after whitespace) by `</use_mcp_tool>`, mirroring the
backtracking of `([\s\S]*?)\s*</arguments>\s*</use_mcp_tool>`. -/
def captureArgs : Str → Option (Str × Str)
  | [] => none
  | c :: rest =>
    if (chars "</arguments>").isPrefixOf (c :: rest) &&
        (chars "</use_mcp_tool>").isPrefixOf
          (((c :: rest).drop (chars "</arguments>").length).dropWhile Char.isWhitespace) then
      some ([], (((c :: rest).drop (chars "</arguments>").length).dropWhile
        Char.isWhitespace).drop (chars "</use_mcp_tool>").length)
    else
      match captureArgs rest with
      | some (pre, after) => some (c :: pre, after)
      | none => none

/-- Head match of the framed tool-call pattern
`<use_mcp_tool>\s*<server_name>(.*?)</server_name>\s*<tool_name>(.*?)</tool_name>\s*<arguments>\s*([\s\S]*?)\s*</arguments>\s*</use_mcp_tool>`;
returns the three raw captures and the remainder after the match. -/
def matchMcpToolCallHead (text : Str) : Option ((Str × Str × Str) × Str) :=
  if (chars "<use_mcp_tool>").isPrefixOf text then
    let r0 := (text.drop (chars "<use_mcp_tool>").length).dropWhile Char.isWhitespace
    if (chars "<server_name>").isPrefixOf r0 then
      match captureUntil (chars "</server_name>") (r0.drop (chars "<server_name>").length) with
      | none => none
      | some (serverRaw, r1) =>
        let r2 := r1.dropWhile Char.isWhitespace
        if (chars "<tool_name>").isPrefixOf r2 then
          match captureUntil (chars "</tool_name>") (r2.drop (chars "<tool_name>").length) with
          | none => none
          | some (toolRaw, r3) =>
            let r4 := r3.dropWhile Char.isWhitespace
            if (chars "<arguments>").isPrefixOf r4 then
              match captureArgs (r4.drop (chars "<arguments>").length) with
              | some (argsRaw, after) => some ((serverRaw, toolRaw, argsRaw), after)
              | none => none
            else none
        else none
    else none
  else none

/-- `re.findall` of the framed tool-call pattern: non-overlapping matches,
scanning left to right (`fuel` decreases once per consumed character). -/
def findMcpToolCalls : Nat → Str → List (Str × Str × Str)
  | 0, _ => []
  | _ + 1, [] => []
  | fuel + 1, c :: rest =>
    match matchMcpToolCallHead (c :: rest) with
    | some (triple, after) => triple :: findMcpToolCalls fuel after
    | none => findMcpToolCalls fuel rest

/-- An item of the OpenAI Response API `output` array. -/
structure FunctionCallItem where
  type : Str
  name : Str
  arguments : Str
  callId : Option Str

/-- A tool call object of the OpenAI Completion API. -/
structure CompletionToolCall where
  name : Str
  arguments : Str
  id : Str

/-- The three supported response dialects of `parse_llm_response_for_tool_calls`:
a Response-API dict, a Completion-API list, or plain text with framed XML. -/
inductive LLMResponseContent where
  | responseApi : List FunctionCallItem → LLMResponseContent
  | completionApi : List CompletionToolCall → LLMResponseContent
  | text : Str → LLMResponseContent

/-- A parsed tool call. -/
structure ToolCall where
  server_name : Str
  tool_name : Str
  arguments : Json
  id : Option Str

/-- `parse_llm_response_for_tool_calls(llm_response_content_text)`. -/
def parseLLMResponseForToolCalls : LLMResponseContent → List ToolCall
  | LLMResponseContent.responseApi output =>
    (output.filter (fun it => it.type == chars "function_call")).map (fun it =>
      let p := splitServerTool it.name
      ⟨p.1, p.2, filterNoneValues (safeJsonLoads it.arguments), it.callId⟩)
  | LLMResponseContent.completionApi toolCalls =>
    toolCalls.map (fun tc =>
      let p := splitServerTool tc.name
      ⟨p.1, p.2, filterNoneValues (completionArguments tc.arguments), some tc.id⟩)
  | LLMResponseContent.text s =>
    (findMcpToolCalls (s.length + 1) s).map (fun t =>
      ⟨trimChars t.1, trimChars t.2.1,
        filterNoneValues (safeJsonLoads (trimChars t.2.2)), none⟩)

/-- No top-level key of an arguments dictionary maps to `null`. -/
def noNullTopLevel : Json → Prop
  | Json.obj kvs => ∀ kv ∈ kvs, kv.2 ≠ Json.null
  | _ => True

theorem noNullTopLevel_filterNoneValues (v : Json) : noNullTopLevel (filterNoneValues v) := by
  cases v with
  | obj kvs =>
    intro kv hmem
    rw [List.mem_filter] at hmem
    rcases hmem with ⟨_, hp⟩
    intro hnull
    rw [hnull] at hp
    simp at hp
  | null => trivial
  | bool b => trivial
  | num s => trivial
  | str s => trivial
  | arr items => trivial

/-- **C10.** Every tool call emitted by the response parser, in any supported
dialect, has an arguments dictionary containing no key whose value is `null`:
keys parsed to `null` are removed before the call is emitted. -/
theorem c10_no_null_arguments (resp : LLMResponseContent) (tc : ToolCall)
    (h : tc ∈ parseLLMResponseForToolCalls resp) : noNullTopLevel tc.arguments := by
  cases resp with
  | responseApi output =>
    simp only [parseLLMResponseForToolCalls] at h
    obtain ⟨it, _, rfl⟩ := List.mem_map.mp h
    exact noNullTopLevel_filterNoneValues _
  | completionApi toolCalls =>
    simp only [parseLLMResponseForToolCalls] at h
    obtain ⟨it, _, rfl⟩ := List.mem_map.mp h
    exact noNullTopLevel_filterNoneValues _
  | text s =>
    simp only [parseLLMResponseForToolCalls] at h
    obtain ⟨it, _, rfl⟩ := List.mem_map.mp h
    exact noNullTopLevel_filterNoneValues _

set_option maxRecDepth 32768 in
/-- Witness for C10: a framed tool call whose arguments carry a `null` value
parses to arguments with the `null` key removed. -/
theorem c10_no_null_arguments_witness :
    noNullTopLevel (ToolCall.mk (chars "srv") (chars "tool")
        (Json.obj [(chars "b", Json.num (chars "1"))]) none).arguments :=
  c10_no_null_arguments
    (LLMResponseContent.text
      (chars "<use_mcp_tool><server_name>srv</server_name><tool_name>tool</tool_name><arguments>\x7b\"a\": null, \"b\": 1\x7d</arguments></use_mcp_tool>"))
    (ToolCall.mk (chars "srv") (chars "tool")
      (Json.obj [(chars "b", Json.num (chars "1"))]) none)
    (by rw [show parseLLMResponseForToolCalls
          (LLMResponseContent.text
            (chars "<use_mcp_tool><server_name>srv</server_name><tool_name>tool</tool_name><arguments>\x7b\"a\": null, \"b\": 1\x7d</arguments></use_mcp_tool>"))
        = [ToolCall.mk (chars "srv") (chars "tool")
            (Json.obj [(chars "b", Json.num (chars "1"))]) none] from rfl]
        exact List.mem_singleton_self _)

/-! ## Task logger: JSON serialization
Embeds `TaskLog.serialize_for_json` and `TaskLog.to_json`
(`apps/miroflow-agent/src/logging/task_logger.py`). -/

/-- Python values as they occur in a `TaskLog` after `dataclasses.asdict`:
JSON primitives, `pathlib.Path` values, lists, dicts, objects carrying a
`__dict__`, and values with no `__dict__` that `json.dumps` cannot serialize
(modelled by `set`). -/
inductive PyVal where
  | none : PyVal
  | bool : Bool → PyVal
  | int : Int → PyVal
  | str : Str → PyVal
  | path : Str → PyVal
  | list : List PyVal → PyVal
  | dict : List (Str × PyVal) → PyVal
  | obj : List (Str × PyVal) → PyVal
  | set : List PyVal → PyVal

mutual

/-- `TaskLog.serialize_for_json(obj)`: stringify `Path`, recurse through dicts
and lists, replace an object having `__dict__` by its serialized `__dict__`,
and return anything else unchanged. -/
def serializeForJson : PyVal → PyVal
  | PyVal.path p => PyVal.str p
  | PyVal.dict entries => PyVal.dict (serializeEntries entries)
  | PyVal.list items => PyVal.list (serializeItems items)
  | PyVal.obj attrs => PyVal.dict (serializeEntries attrs)
  | v => v

/-- `serialize_for_json` mapped over list items. -/
def serializeItems : List PyVal → List PyVal
  | [] => []
  | v :: rest => serializeForJson v :: serializeItems rest

/-- `serialize_for_json` mapped over dict values. -/
def serializeEntries : List (Str × PyVal) → List (Str × PyVal)
  | [] => []
  | (k, v) :: rest => (k, serializeForJson v) :: serializeEntries rest

end

mutual

/-- Whether `json.dumps` accepts the value (raises `TypeError` otherwise). -/
def jsonSerializable : PyVal → Bool
  | PyVal.none => true
  | PyVal.bool _ => true
  | PyVal.int _ => true
  | PyVal.str _ => true
  | PyVal.list items => itemsSerializable items
  | PyVal.dict entries => entriesSerializable entries
  | PyVal.path _ => false
  | PyVal.obj _ => false
  | PyVal.set _ => false

/-- `jsonSerializable` over list items. -/
def itemsSerializable : List PyVal → Bool
  | [] => true
  | v :: rest => jsonSerializable v && itemsSerializable rest

/-- `jsonSerializable` over dict values. -/
def entriesSerializable : List (Str × PyVal) → Bool
  | [] => true
  | (_, v) :: rest => jsonSerializable v && entriesSerializable rest

end

mutual

/-- Whether every leaf of the value is one that `serialize_for_json` makes
serializable: primitives stay, `Path` is stringified, objects with `__dict__`
become dicts; a `set` (no `__dict__`, not serializable) is not handled. -/
def handledLeaves : PyVal → Bool
  | PyVal.none => true
  | PyVal.bool _ => true
  | PyVal.int _ => true
  | PyVal.str _ => true
  | PyVal.path _ => true
  | PyVal.list items => itemsHandled items
  | PyVal.dict entries => entriesHandled entries
  | PyVal.obj attrs => entriesHandled attrs
  | PyVal.set _ => false

/-- `handledLeaves` over list items. -/
def itemsHandled : List PyVal → Bool
  | [] => true
  | v :: rest => handledLeaves v && itemsHandled rest

/-- `handledLeaves` over dict values. -/
def entriesHandled : List (Str × PyVal) → Bool
  | [] => true
  | (_, v) :: rest => handledLeaves v && entriesHandled rest

end

mutual

theorem serializable_of_handled :
    ∀ v : PyVal, handledLeaves v = true → jsonSerializable (serializeForJson v) = true
  | PyVal.none, _ => rfl
  | PyVal.bool _, _ => rfl
  | PyVal.int _, _ => rfl
  | PyVal.str _, _ => rfl
  | PyVal.path _, _ => rfl
  | PyVal.list items, h => itemsSerializable_of_handled items h
  | PyVal.dict entries, h => entriesSerializable_of_handled entries h
  | PyVal.obj attrs, h => entriesSerializable_of_handled attrs h

theorem itemsSerializable_of_handled :
    ∀ items : List PyVal, itemsHandled items = true →
      itemsSerializable (serializeItems items) = true
  | [], _ => rfl
  | v :: rest, h => by
    rw [itemsHandled] at h
    rcases Bool.and_eq_true_iff.mp h with ⟨h1, h2⟩
    rw [serializeItems, itemsSerializable,
        serializable_of_handled v h1, itemsSerializable_of_handled rest h2]
    rfl

theorem entriesSerializable_of_handled :
    ∀ entries : List (Str × PyVal), entriesHandled entries = true →
      entriesSerializable (serializeEntries entries) = true
  | [], _ => rfl
  | (k, v) :: rest, h => by
    rw [entriesHandled] at h
    rcases Bool.and_eq_true_iff.mp h with ⟨h1, h2⟩
    rw [serializeEntries, entriesSerializable,
        serializable_of_handled v h1, entriesSerializable_of_handled rest h2]
    rfl

end

/-- A `StepLog` dataclass value (the fields relevant to serialization). -/
structure StepLogM where
  step_name : Str
  message : Str
  timestamp : Str
  info_level : Str
  metadata : List (Str × PyVal)

/-- A `TaskLog` dataclass value (a representative subset of its fields; the
`Any`-typed `input`, the step metadata and `trace_data` may hold arbitrary
Python values). -/
structure TaskLogM where
  status : Str
  task_id : Str
  input : PyVal
  log_dir : Str
  step_logs : List StepLogM
  trace_data : List (Str × PyVal)

/-- `dataclasses.asdict` on a `StepLog`. -/
def stepLogAsDict (s : StepLogM) : PyVal :=
  PyVal.dict [(chars "step_name", PyVal.str s.step_name),
              (chars "message", PyVal.str s.message),
              (chars "timestamp", PyVal.str s.timestamp),
              (chars "info_level", PyVal.str s.info_level),
              (chars "metadata", PyVal.dict s.metadata)]

/-- `dataclasses.asdict` on a `TaskLog`. -/
def taskLogAsDict (log : TaskLogM) : PyVal :=
  PyVal.dict [(chars "status", PyVal.str log.status),
              (chars "task_id", PyVal.str log.task_id),
              (chars "input", log.input),
              (chars "log_dir", PyVal.str log.log_dir),
              (chars "step_logs", PyVal.list (log.step_logs.map stepLogAsDict)),
              (chars "trace_data", PyVal.dict log.trace_data)]

/-- Whether `TaskLog.to_json()` succeeds: `json.dumps` accepts
`serialize_for_json(asdict(self))` (only `UnicodeEncodeError` is caught there;
a `TypeError` from an unserializable leaf propagates). -/
def toJsonSucceeds (log : TaskLogM) : Bool :=
  jsonSerializable (serializeForJson (taskLogAsDict log))

/-- **C9 counterexample.** A `TaskLog` whose `trace_data` holds a `set` (no
`__dict__`, not JSON-serializable): `serialize_for_json` passes it through
unchanged — it is not stringified — and `json.dumps` raises `TypeError`, so
`to_json()` does not succeed, refuting the claim as stated. -/
theorem c9_counterexample :
    toJsonSucceeds ⟨chars "running", chars "t1", PyVal.none, chars "logs", [],
        [(chars "x", PyVal.set [])]⟩ = false := rfl

/-- **C9 (amended).** `to_json()` stringifies `Path` values and converts
objects carrying a `__dict__` to dictionaries; serialization succeeds whenever
every leaf of the log's fields is a JSON primitive, a `Path`, or such an
object (recursively through lists and dicts).  A leaf without `__dict__` that
`json.dumps` rejects — such as a `set` — is passed through unchanged and
serialization fails. -/
theorem c9_serialization (log : TaskLogM)
    (h : handledLeaves (taskLogAsDict log) = true) :
    toJsonSucceeds log = true ∧
    (∀ p : Str, serializeForJson (PyVal.path p) = PyVal.str p) :=
  ⟨serializable_of_handled _ h, fun _ => rfl⟩

/-- Witness for the amended C9 at a log holding a `Path` inside step metadata. -/
theorem c9_serialization_witness :
    toJsonSucceeds ⟨chars "done", chars "t2", PyVal.str (chars "hello"), chars "logs",
        [⟨chars "s", chars "m", chars "ts", chars "info",
          [(chars "file", PyVal.path (chars "/tmp/x"))]⟩], []⟩ = true :=
  (c9_serialization
    ⟨chars "done", chars "t2", PyVal.str (chars "hello"), chars "logs",
      [⟨chars "s", chars "m", chars "ts", chars "info",
        [(chars "file", PyVal.path (chars "/tmp/x"))]⟩], []⟩ rfl).1

end MiroThinker
